import Mathlib

/-!
Shallow embedding of src/main.rs: a multi-ring io_uring submission and
completion engine (a closed-loop read flood generator).

Modelling conventions.  The submission queue is a capacity-bounded list of
entries; the kernel side of a ring is represented by the list of entries the
kernel has consumed but not yet completed, together with the list of pending
completion records; the user-space backlog is a FIFO list.  Machine integers
become Nat or Int with explicit reductions modulo powers of two where the
source casts matter (the i32 to usize cast).  Queue synchronization calls
(sq.sync, cq.sync) are identities because the model keeps a single coherent
view of each queue.  Fallible operations return Except or are tagged with an
explicit outcome parameter where the outcome is decided by the kernel.
-/

namespace UringModel

/-- MAX_SQES (main.rs line 39): the fixed capacity used for every ring. -/
def MAX_SQES : Nat := 4096

/-- A submission-queue view (io_uring squeue::SubmissionQueue): its fixed
capacity and the entries currently published in the queue, oldest first. -/
structure SQ (α : Type) where
  cap : Nat
  entries : List α
deriving DecidableEq

/-- sq.sync(): the model keeps one coherent view, so synchronizing the
user-space view with the kernel is the identity. -/
def SQ.sync (sq : SQ α) : SQ α := sq

/-- sq.is_full(): the queue holds as many entries as its capacity. -/
def SQ.is_full (sq : SQ α) : Bool := decide (sq.cap ≤ sq.entries.length)

/-- The raw slot write done by the unsafe sq.push when the queue is not
full: the entry is appended at the tail. -/
def SQ.pushRaw (sq : SQ α) (e : α) : SQ α := ⟨sq.cap, sq.entries ++ [e]⟩

/-- The statement `let _ = sq.push(&sqe)` from the backlog drain loop
(main.rs line 123): push and discard the result, so on a full queue the
entry is silently dropped. -/
def SQ.pushSilent (sq : SQ α) (e : α) : SQ α :=
  if sq.is_full then sq else sq.pushRaw e

/-- The while loop of fill_sq (main.rs lines 156-161): push copies of the
template entry until the queue reports full or num_sqes copies have been
pushed, returning the new queue and the number of copies pushed.  The push
inside the loop is guarded by the not-full check, so its error branch (the
`?` in the source) can never fire and is not represented. -/
def fillLoop (sqe : α) : SQ α → Nat → SQ α × Nat
  | sq, 0 => (sq, 0)
  | sq, n + 1 =>
    if sq.is_full then (sq, 0)
    else
      let r := fillLoop sqe (sq.pushRaw sqe) n
      (r.1, r.2 + 1)

/-- fill_sq (main.rs lines 152-165): synchronize the queue view, run the
fill loop, synchronize again to publish the new entries.  Also returns the
count of entries pushed (the loop counter i of the source). -/
def fill_sq (sq : SQ α) (sqe : α) (num_sqes : Nat) : SQ α × Nat :=
  let sq1 := sq.sync
  let r := fillLoop sqe sq1 num_sqes
  (r.1.sync, r.2)

/-- A completion-queue record (main.rs lines 131-133): the signed result
code returned by cqe.result() and the correlation tag from cqe.user_data().
The source program runs on a platform where the result is an i32 and
user_data a u64. -/
structure Cqe where
  res : Int
  user_data : Nat
deriving DecidableEq

/-- A continuation byte of a UTF-8 sequence: 0x80 to 0xBF. -/
def isCont (b : Nat) : Bool := decide (0x80 ≤ b ∧ b ≤ 0xBF)

/-- Validity of a byte string as UTF-8, with the accept set of Rust
str::from_utf8 (rejecting overlong encodings, surrogates and code points
above U+10FFFF). -/
def utf8Valid : List Nat → Bool
  | [] => true
  | b :: rest =>
    if b < 0x80 then utf8Valid rest
    else if 0xC2 ≤ b ∧ b ≤ 0xDF then
      match rest with
      | b1 :: r => isCont b1 && utf8Valid r
      | [] => false
    else if 0xE0 ≤ b ∧ b ≤ 0xEF then
      match rest with
      | b1 :: b2 :: r =>
        (if b = 0xE0 then decide (0xA0 ≤ b1 ∧ b1 ≤ 0xBF)
         else if b = 0xED then decide (0x80 ≤ b1 ∧ b1 ≤ 0x9F)
         else isCont b1) && isCont b2 && utf8Valid r
      | _ => false
    else if 0xF0 ≤ b ∧ b ≤ 0xF4 then
      match rest with
      | b1 :: b2 :: b3 :: r =>
        (if b = 0xF0 then decide (0x90 ≤ b1 ∧ b1 ≤ 0xBF)
         else if b = 0xF4 then decide (0x80 ≤ b1 ∧ b1 ≤ 0x8F)
         else isCont b1) && isCont b2 && isCont b3 && utf8Valid r
      | _ => false
    else false

/-- The modulus of the 64-bit usize type: 2 to the power 64. -/
def USIZE_MOD : Int := 18446744073709551616

/-- The Rust cast `res as usize` where res is an i32 on a 64-bit platform:
sign extension followed by reinterpretation, so a negative result becomes a
number close to 2 to the power 64. -/
def castToUsize (res : Int) : Nat := (res % USIZE_MOD).toNat

/-- The body of the completion loop for one record (main.rs lines 132-136):
slice the shared read buffer as rd_buf[..res as usize] and decode it as
UTF-8.  Returns none when the slice bound exceeds the buffer length (the
slice indexing panics), some (.error ()) when the bytes are not valid UTF-8
(str::from_utf8 returns Err, propagated by `?`), and some (.ok bytes) on
success (the bytes are printed along with the correlation tag). -/
def handleCqe (buf : List Nat) (res : Int) : Option (Except Unit (List Nat)) :=
  if castToUsize res ≤ buf.length then
    if utf8Valid (buf.take (castToUsize res)) then
      some (.ok (buf.take (castToUsize res)))
    else some (.error ())
  else none

/-- How the completion loop of a pass stopped early: a Utf8Error propagated
by `?`, or a panic from an out-of-bounds slice. -/
inductive ReapStop
  | decodeErr
  | panicked
deriving DecidableEq

/-- The for loop over the completion queue (main.rs lines 131-137): consume
records in arrival order, decoding the buffer slice for each.  Returns the
number of records consumed, how the loop stopped early (if it did), and the
records left unconsumed in the completion queue. -/
def reapCq (buf : List Nat) : List Cqe → Nat × Option ReapStop × List Cqe
  | [] => (0, none, [])
  | c :: rest =>
    match handleCqe buf c.res with
    | none => (1, some .panicked, rest)
    | some (.error _) => (1, some .decodeErr, rest)
    | some (.ok _) =>
      let t := reapCq buf rest
      (t.1 + 1, t.2.1, t.2.2)

/-- The full state of one ring together with the ghost counters needed for
the conservation argument: the submission queue view, the entries the
kernel has consumed from the queue but not yet completed, the pending
completion records, the user-space backlog (main.rs line 62), and the ghost
totals of entries ever pushed into the queue and completions ever reaped. -/
structure RingState (α : Type) where
  sq : SQ α
  submitted : List α
  cq : List Cqe
  backlog : List α
  pushed : Nat
  drained : Nat
deriving DecidableEq

/-- The effect on a ring of a successful submit or submit_and_wait call:
every entry published in the submission queue is consumed by the kernel. -/
def submitFlush (st : RingState α) : RingState α :=
  { st with sq := ⟨st.sq.cap, []⟩, submitted := st.submitted ++ st.sq.entries }

/-- Outcome of the submitter.submit() call inside the backlog drain loop
(main.rs lines 114-118): success, the EBUSY error, or any other error. -/
inductive SubmitRes
  | ok
  | ebusy
  | fatal
deriving DecidableEq

/-- How the backlog drain loop (main.rs lines 112-127) exited: backlog
found empty (break on None), break on EBUSY, or early return on a fatal
submit error. -/
inductive DrainExit
  | done
  | busy
  | fatal
deriving DecidableEq

/-- Result of the backlog drain loop: the queue view, the kernel-consumed
entries, the remaining backlog, how the loop exited, and the next index
into the submit-outcome oracle. -/
structure DrainRes (α : Type) where
  sq : SQ α
  submitted : List α
  backlog : List α
  exit : DrainExit
  nsubmits : Nat
deriving DecidableEq

/-- The backlog drain loop of main.rs lines 112-127, recursing on the
backlog list.  Each iteration: if the queue is full, call submit (outcome
given by the oracle o at the current submit index) - on Ok the kernel
consumes the queue, on EBUSY break, on any other error return the fatal
exit; then synchronize (identity) and pop the backlog front - on empty
break, otherwise push the entry with `let _ = sq.push(&sqe)` and loop. -/
def drainLoop (o : Nat → SubmitRes) : List α → SQ α → List α → Nat → DrainRes α
  | [], sq, sub, k =>
    if sq.is_full then
      match o k with
      | .ebusy => ⟨sq, sub, [], .busy, k + 1⟩
      | .fatal => ⟨sq, sub, [], .fatal, k + 1⟩
      | .ok => ⟨⟨sq.cap, []⟩, sub ++ sq.entries, [], .done, k + 1⟩
    else ⟨sq, sub, [], .done, k⟩
  | e :: rest, sq, sub, k =>
    if sq.is_full then
      match o k with
      | .ebusy => ⟨sq, sub, e :: rest, .busy, k + 1⟩
      | .fatal => ⟨sq, sub, e :: rest, .fatal, k + 1⟩
      | .ok =>
        let sq1 : SQ α := ⟨sq.cap, []⟩
        drainLoop o rest (sq1.pushSilent e) (sub ++ sq.entries) (k + 1)
    else drainLoop o rest (sq.pushSilent e) sub k

/-- The backlog drain loop acting on a full ring state, returning the new
state, the exit kind, and the final submit index. -/
def drainBacklog (o : Nat → SubmitRes) (st : RingState α) (k : Nat) :
    RingState α × DrainExit × Nat :=
  let r := drainLoop o st.backlog st.sq st.submitted k
  ({ st with sq := r.sq, submitted := r.submitted, backlog := r.backlog },
   r.exit, r.nsubmits)

/-- Outcome of submitter.submit_and_wait(1) at the top of a pass (main.rs
line 104): success, the Interrupted error kind, or any other error. -/
inductive WaitRes
  | ok
  | interrupted
  | err
deriving DecidableEq

/-- How one per-ring pass of the steady-state loop ended: skipped via
continue (interrupted wait), completed normally, returned an error (`?` or
an explicit return Err), or panicked (out-of-bounds slice). -/
inductive PassResult
  | skipped
  | normal
  | fatal
  | panicked
deriving DecidableEq

/-- One per-ring pass of the steady-state loop (main.rs lines 103-137):
submit_and_wait triage (continue on Interrupted, return on other errors),
cq.sync (identity), the backlog drain loop, fill_sq back to the target
depth, then the completion loop decoding the shared read buffer. -/
def ringPass (wait : WaitRes) (o : Nat → SubmitRes) (tmpl : α) (numSqes : Nat)
    (buf : List Nat) (st : RingState α) : RingState α × PassResult :=
  match wait with
  | .interrupted => (st, .skipped)
  | .err => (st, .fatal)
  | .ok =>
    let st1 := submitFlush st
    match drainBacklog o st1 0 with
    | (st2, DrainExit.fatal, _) => (st2, .fatal)
    | (st2, _, _) =>
      let f := fill_sq st2.sq tmpl numSqes
      let st3 : RingState α := { st2 with sq := f.1, pushed := st2.pushed + f.2 }
      match reapCq buf st3.cq with
      | (nr, none, rem) =>
        ({ st3 with cq := rem, drained := st3.drained + nr }, .normal)
      | (nr, some ReapStop.decodeErr, rem) =>
        ({ st3 with cq := rem, drained := st3.drained + nr }, .fatal)
      | (nr, some ReapStop.panicked, rem) =>
        ({ st3 with cq := rem, drained := st3.drained + nr }, .panicked)

/-- create_ring (main.rs lines 142-150): allocate a ring of the given
capacity with empty queues.  The worker-count registration has no effect on
the queue model. -/
def create_ring (max_sqes : Nat) : RingState α :=
  ⟨⟨max_sqes, []⟩, [], [], [], 0, 0⟩

/-- The state of a ring as do_work creates it: capacity MAX_SQES, all
queues and the backlog empty. -/
def initRing : RingState α := create_ring MAX_SQES

/-- The individual queue operations do_work performs on a ring, together
with the kernel's own completion action.  Each constructor is one effect
from the source: a successful submit or submit_and_wait consuming the
queue; the kernel completing one consumed entry with an arbitrary record;
the backlog drain loop; fill_sq with the template; and the completion loop
consuming records.  The backlog is never pushed to, as in the source. -/
inductive Step (tmpl : α) : RingState α → RingState α → Prop
  | submit (st : RingState α) : Step tmpl st (submitFlush st)
  | complete (st : RingState α) (l1 l2 : List α) (e : α) (c : Cqe) :
      st.submitted = l1 ++ e :: l2 →
      Step tmpl st { st with submitted := l1 ++ l2, cq := st.cq ++ [c] }
  | drainB (st : RingState α) (o : Nat → SubmitRes) (k : Nat) :
      Step tmpl st (drainBacklog o st k).1
  | fill (st : RingState α) (n : Nat) :
      Step tmpl st { st with sq := (fill_sq st.sq tmpl n).1,
                             pushed := st.pushed + (fill_sq st.sq tmpl n).2 }
  | reap (st : RingState α) (buf : List Nat) :
      Step tmpl st { st with cq := (reapCq buf st.cq).2.2,
                             drained := st.drained + (reapCq buf st.cq).1 }

/-- The states a ring of do_work can be in: everything reachable from the
freshly created ring by the program's queue operations. -/
def Reachable (tmpl : α) (st : RingState α) : Prop :=
  Relation.ReflTransGen (Step tmpl) initRing st

/-- Entries currently held by the kernel-visible ring: published in the
submission queue view or consumed by the kernel and still executing.  The
spec's two-level buffering contrasts this kernel queue with the user-space
backlog. -/
def liveQueueCount (st : RingState α) : Nat :=
  st.sq.entries.length + st.submitted.length

/-- Completion records delivered by the kernel but not yet consumed by the
completion loop. -/
def completedNotDrained (st : RingState α) : Nat := st.cq.length

/-- The per-ring setup loop of do_work (main.rs lines 89-99).  Affinity
masks are CPU bitmask numbers.  saved is the mask read by
sched_getaffinity before the loop; each list element is a ring's assigned
mask paired with the outcome of its fill_sq and submit calls (none means
both succeeded).  Returns the thread's affinity mask when the function
leaves this region, and the setup result.  A ring failure returns through
`?` immediately; only the path after the loop restores the saved mask. -/
def setupRings {ε : Type} : List (Nat × Option ε) → Nat → Nat × Except ε Unit
  | [], saved => (saved, .ok ())
  | (c, some e) :: _, _ => (c, .error e)
  | (_, none) :: rest, saved => setupRings rest saved

/-- The join loop of main (main.rs lines 47-49): `t.join().unwrap()?` for
each spawned thread in spawn order, so the first error in join order is
returned. -/
def joinThreads {ε : Type} : List (Except ε Unit) → Except ε Unit
  | [] => .ok ()
  | .error e :: _ => .error e
  | .ok _ :: rest => joinThreads rest

/-- main (main.rs lines 41-54): with num_threads greater than 1, spawn that
many threads each running its own do_work (thread i's result is results i;
each do_work constructs a fully private ring pool, buffer and backlog) and
join them in order; otherwise run do_work inline on the calling thread. -/
def mainRun {ε : Type} (numThreads : Nat) (results : Nat → Except ε Unit) :
    Except ε Unit :=
  if numThreads > 1 then joinThreads ((List.range numThreads).map results)
  else results 0

/-- The joint invariant of every reachable ring state: the backlog stays
empty (nothing in the program pushes to it), the capacity stays MAX_SQES,
and no entry is lost: queue entries plus kernel-held entries plus pending
completion records plus reaped completions account for every entry ever
pushed. -/
def RingInv (st : RingState α) : Prop :=
  st.backlog = [] ∧ st.sq.cap = MAX_SQES ∧
  st.sq.entries.length + st.submitted.length + st.cq.length + st.drained = st.pushed

/-- A submit-outcome oracle where every submit succeeds. -/
def oracleOk : Nat → SubmitRes := fun _ => SubmitRes.ok

/-- A submit-outcome oracle where every submit fails with EBUSY. -/
def obusy : Nat → SubmitRes := fun _ => SubmitRes.ebusy

/-- A submit-outcome oracle where every submit fails fatally. -/
def ofatal : Nat → SubmitRes := fun _ => SubmitRes.fatal

/-- A small concrete ring state with a full queue and a pending backlog
entry, used to exercise the EBUSY and fatal branches of the drain loop. -/
def st6 : RingState Unit := ⟨⟨1, [()]⟩, [], [], [()], 2, 0⟩

/-- A 1024-byte read buffer whose first byte 0x80 is a lone UTF-8
continuation byte, so decoding any non-empty slice fails. -/
def bufBad : List Nat := 128 :: List.replicate 1023 0

/-- A completion record reporting one byte read with correlation tag 0. -/
def cqeDemo : Cqe := ⟨1, 0⟩

/-- A concrete ring state with one pending completion record. -/
def st7 : RingState Unit := ⟨⟨4096, []⟩, [], [cqeDemo], [], 1, 0⟩

/-- A concrete ring state with a three-entry backlog and a capacity-2
queue, used to exercise the mid-drain flush of the backlog drain loop. -/
def stDemo : RingState Nat := ⟨⟨2, []⟩, [], [], [10, 20, 30], 3, 0⟩

/-- The ring state after one fill of two template entries into the fresh
ring, exactly as the fill step of do_work produces it. -/
def fillDemoState : RingState Unit :=
  { (initRing : RingState Unit) with
    sq := (fill_sq (initRing : RingState Unit).sq () 2).1,
    pushed := (initRing : RingState Unit).pushed +
      (fill_sq (initRing : RingState Unit).sq () 2).2 }

/-- Concrete per-thread results: thread 0 succeeds, threads 1 and 2 fail
with distinct errors. -/
def fThreads : Nat → Except Nat Unit :=
  fun i => if i = 0 then .ok () else if i = 1 then .error 1 else .error 2

lemma fillLoop_spec (sqe : α) (n : Nat) : ∀ (sq : SQ α),
    fillLoop sqe sq n =
      (⟨sq.cap, sq.entries ++ List.replicate (min n (sq.cap - sq.entries.length)) sqe⟩,
       min n (sq.cap - sq.entries.length)) := by
  induction n with
  | zero => intro sq; simp [fillLoop]
  | succ n ih =>
    intro sq
    by_cases h : sq.is_full
    · have hc : sq.cap ≤ sq.entries.length := by
        simpa [SQ.is_full] using h
      obtain ⟨cap, entries⟩ := sq
      simp at hc
      simp [fillLoop, SQ.is_full, hc, Nat.sub_eq_zero_of_le hc]
    · have hc : sq.entries.length < sq.cap := by
        have := h
        simp [SQ.is_full] at this
        omega
      obtain ⟨cap, entries⟩ := sq
      simp at hc
      have hfull : (SQ.mk cap entries).is_full = false := by
        simp [SQ.is_full]; omega
      have hsub : cap - entries.length = (cap - (entries.length + 1)) + 1 := by omega
      simp [fillLoop, hfull, ih, SQ.pushRaw, hsub, Nat.succ_min_succ,
        List.replicate_succ, List.append_assoc]

lemma fill_sq_spec (sq : SQ α) (sqe : α) (n : Nat) :
    fill_sq sq sqe n =
      (⟨sq.cap, sq.entries ++ List.replicate (min n (sq.cap - sq.entries.length)) sqe⟩,
       min n (sq.cap - sq.entries.length)) := by
  simp [fill_sq, SQ.sync, fillLoop_spec]

lemma fill_sq_of_full (sq : SQ α) (sqe : α) (n : Nat) (h : sq.is_full = true) :
    fill_sq sq sqe n = (sq, 0) := by
  have hc : sq.cap ≤ sq.entries.length := by simpa [SQ.is_full] using h
  obtain ⟨cap, entries⟩ := sq
  simp at hc
  simp [fill_sq_spec, Nat.sub_eq_zero_of_le hc]

lemma pushSilent_cap (sq : SQ α) (e : α) : (sq.pushSilent e).cap = sq.cap := by
  unfold SQ.pushSilent
  split <;> rfl

lemma drainLoop_take (o : Nat → SubmitRes) (bl : List α) :
    ∀ (sq : SQ α) (sub : List α) (k : Nat), 0 < sq.cap →
      ∃ j, j ≤ bl.length ∧
        ((drainLoop o bl sq sub k).submitted ++ (drainLoop o bl sq sub k).sq.entries
          = sub ++ sq.entries ++ bl.take j) ∧
        (drainLoop o bl sq sub k).backlog = bl.drop j ∧
        ((drainLoop o bl sq sub k).exit = DrainExit.done →
          (drainLoop o bl sq sub k).backlog = []) := by
  induction bl with
  | nil =>
    intro sq sub k _
    refine ⟨0, by simp, ?_⟩
    by_cases h : sq.is_full
    · cases hok : o k <;> simp [drainLoop, h, hok]
    · simp [drainLoop, h]
  | cons e rest ih =>
    intro sq sub k hcap
    by_cases h : sq.is_full
    · cases hok : o k with
      | ebusy => exact ⟨0, by simp, by simp [drainLoop, h, hok], by simp [drainLoop, h, hok]⟩
      | fatal => exact ⟨0, by simp, by simp [drainLoop, h, hok], by simp [drainLoop, h, hok]⟩
      | ok =>
        have hempty : (SQ.mk sq.cap ([] : List α)).is_full = false := by
          simp [SQ.is_full]; omega
        obtain ⟨j, hj, heq, hbl, hdone⟩ :=
          ih ((SQ.mk sq.cap []).pushSilent e) (sub ++ sq.entries) (k + 1)
            (by rw [pushSilent_cap]; exact hcap)
        refine ⟨j + 1, by simpa using hj, ?_, ?_, ?_⟩
        · simp only [drainLoop, h, hok, if_true]
          rw [heq]
          simp [SQ.pushSilent, hempty, SQ.pushRaw, List.append_assoc]
        · simp only [drainLoop, h, hok, if_true]
          rw [hbl]
          simp
        · simp only [drainLoop, h, hok, if_true]
          exact hdone
    · obtain ⟨j, hj, heq, hbl, hdone⟩ :=
        ih (sq.pushSilent e) sub k (by rw [pushSilent_cap]; exact hcap)
      refine ⟨j + 1, by simpa using hj, ?_, ?_, ?_⟩
      · simp only [drainLoop, h, Bool.false_eq_true, if_false]
        rw [heq]
        simp [SQ.pushSilent, h, SQ.pushRaw, List.append_assoc]
      · simp only [drainLoop, h, Bool.false_eq_true, if_false]
        rw [hbl]
        simp
      · simp only [drainLoop, h, Bool.false_eq_true, if_false]
        exact hdone

lemma drainLoop_busy_full (o : Nat → SubmitRes) (bl : List α) :
    ∀ (sq : SQ α) (sub : List α) (k : Nat),
      (drainLoop o bl sq sub k).exit = DrainExit.busy →
      (drainLoop o bl sq sub k).sq.is_full = true := by
  induction bl with
  | nil =>
    intro sq sub k hex
    by_cases h : sq.is_full
    · cases hok : o k <;> simp_all [drainLoop]
    · simp_all [drainLoop]
  | cons e rest ih =>
    intro sq sub k hex
    by_cases h : sq.is_full
    · cases hok : o k with
      | ebusy => simp_all [drainLoop]
      | fatal => simp_all [drainLoop]
      | ok =>
        simp only [drainLoop, h, hok, if_true] at hex ⊢
        exact ih _ _ _ hex
    · simp only [drainLoop, h, Bool.false_eq_true, if_false] at hex ⊢
      exact ih _ _ _ hex

lemma drainBacklog_empty (o : Nat → SubmitRes) (st : RingState α) (k : Nat)
    (hb : st.backlog = []) :
    (drainBacklog o st k).1 = st ∨ (drainBacklog o st k).1 = submitFlush st := by
  obtain ⟨sq, sub, cq, bl, p, d⟩ := st
  simp at hb
  subst hb
  by_cases h : sq.is_full
  · cases hok : o k
    · right; simp [drainBacklog, drainLoop, h, hok, submitFlush]
    · left; simp [drainBacklog, drainLoop, h, hok]
    · left; simp [drainBacklog, drainLoop, h, hok]
  · left; simp [drainBacklog, drainLoop, h]

lemma reapCq_count (buf : List Nat) (l : List Cqe) :
    (reapCq buf l).1 + (reapCq buf l).2.2.length = l.length := by
  induction l with
  | nil => simp [reapCq]
  | cons c rest ih =>
    cases h : handleCqe buf c.res with
    | none =>
      simp [reapCq, h]
      omega
    | some r =>
      cases r with
      | error u =>
        simp [reapCq, h]
        omega
      | ok v =>
        simp [reapCq, h]
        omega

lemma ringInv_step {tmpl : α} {st st' : RingState α} (hinv : RingInv st)
    (hstep : Step tmpl st st') : RingInv st' := by
  obtain ⟨hb, hcap, hsum⟩ := hinv
  cases hstep with
  | submit =>
    refine ⟨by simpa [submitFlush] using hb, by simpa [submitFlush] using hcap, ?_⟩
    simp [submitFlush]
    omega
  | complete l1 l2 e c hsubm =>
    refine ⟨by simpa using hb, by simpa using hcap, ?_⟩
    have hlen : st.submitted.length = l1.length + l2.length + 1 := by
      rw [hsubm]
      simp
      omega
    simp
    omega
  | drainB o k =>
    rcases drainBacklog_empty o st k hb with h | h
    · rw [h]; exact ⟨hb, hcap, hsum⟩
    · rw [h]
      refine ⟨by simpa [submitFlush] using hb, by simpa [submitFlush] using hcap, ?_⟩
      simp [submitFlush]
      omega
  | fill n =>
    refine ⟨by simpa using hb, ?_, ?_⟩
    · simpa [fill_sq_spec] using hcap
    · simp [fill_sq_spec]
      omega
  | reap buf =>
    refine ⟨by simpa using hb, by simpa using hcap, ?_⟩
    have hr := reapCq_count buf st.cq
    simp
    omega

lemma ringInv_reachable {tmpl : α} {st : RingState α} (h : Reachable tmpl st) :
    RingInv st := by
  induction h with
  | refl => exact ⟨rfl, rfl, rfl⟩
  | tail _ hstep ih => exact ringInv_step ih hstep

lemma joinRange_ok {ε : Type} : ∀ (n : Nat) (f : Nat → Except ε Unit),
    (joinThreads ((List.range n).map f) = .ok () ↔ ∀ i < n, f i = .ok ()) := by
  intro n
  induction n with
  | zero => intro f; simp [joinThreads]
  | succ n ih =>
    intro f
    rw [List.range_succ_eq_map, List.map_cons, List.map_map]
    cases hf : f 0 with
    | error e =>
      simp only [joinThreads]
      constructor
      · intro h
        simp at h
      · intro h
        have h0 := h 0 (by omega)
        rw [hf] at h0
        simp at h0
    | ok u =>
      cases u
      simp only [joinThreads]
      rw [ih (f ∘ Nat.succ)]
      constructor
      · intro h i hi
        cases i with
        | zero => exact hf
        | succ i => simpa [Function.comp] using h i (by omega)
      · intro h i hi
        simpa [Function.comp] using h (i + 1) (by omega)

lemma joinRange_err {ε : Type} : ∀ (n : Nat) (f : Nat → Except ε Unit) (e : ε),
    (joinThreads ((List.range n).map f) = .error e ↔
      ∃ i, i < n ∧ f i = .error e ∧ ∀ j, j < i → f j = .ok ()) := by
  intro n
  induction n with
  | zero =>
    intro f e
    simp [joinThreads]
  | succ n ih =>
    intro f e
    rw [List.range_succ_eq_map, List.map_cons, List.map_map]
    cases hf : f 0 with
    | error e0 =>
      simp only [joinThreads]
      constructor
      · intro h
        have he : e0 = e := by simpa using h
        subst he
        exact ⟨0, by omega, hf, fun j hj => absurd hj (by omega)⟩
      · rintro ⟨i, hi, herr, hok⟩
        cases i with
        | zero => rw [hf] at herr; exact herr
        | succ i =>
          have h0 := hok 0 (by omega)
          rw [hf] at h0
          simp at h0
    | ok u =>
      cases u
      simp only [joinThreads]
      rw [ih (f ∘ Nat.succ) e]
      constructor
      · rintro ⟨i, hi, herr, hok⟩
        refine ⟨i + 1, by omega, by simpa [Function.comp] using herr, ?_⟩
        intro j hj
        cases j with
        | zero => exact hf
        | succ j => simpa [Function.comp] using hok j (by omega)
      · rintro ⟨i, hi, herr, hok⟩
        cases i with
        | zero => rw [hf] at herr; simp at herr
        | succ i =>
          refine ⟨i, by omega, by simpa [Function.comp] using herr, ?_⟩
          intro j hj
          simpa [Function.comp] using hok (j + 1) (by omega)

lemma setupRings_ok {ε : Type} (saved : Nat) :
    ∀ (rings : List (Nat × Option ε)), (∀ p ∈ rings, p.2 = none) →
      setupRings rings saved = (saved, .ok ()) := by
  intro rings
  induction rings with
  | nil => intro _; rfl
  | cons p rest ih =>
    intro h
    obtain ⟨c0, r0⟩ := p
    have hr : r0 = none := h (c0, r0) (by simp)
    subst hr
    simpa [setupRings] using ih (fun q hq => h q (by simp [hq]))

lemma setupRings_fail {ε : Type} (saved c : Nat) (e : ε) (l2 : List (Nat × Option ε)) :
    ∀ l1, (∀ p ∈ l1, p.2 = none) →
      setupRings (l1 ++ (c, some e) :: l2) saved = (c, .error e) := by
  intro l1
  induction l1 with
  | nil => intro _; simp [setupRings]
  | cons p rest ih =>
    intro h
    obtain ⟨c0, r0⟩ := p
    have hr : r0 = none := h (c0, r0) (by simp)
    subst hr
    simpa [setupRings] using ih (fun q hq => h q (by simp [hq]))

lemma handleCqe_isSome (buf : List Nat) (res : Int) :
    (handleCqe buf res).isSome = true ↔ castToUsize res ≤ buf.length := by
  unfold handleCqe
  by_cases h : castToUsize res ≤ buf.length
  · simp only [if_pos h]
    constructor
    · intro _; exact h
    · intro _
      split <;> rfl
  · simp [if_neg h, h]

/-- C1: for a target depth d at most the ring capacity, a fill call on an
empty submission queue view - the state of the queue at every fill site of
do_work when the backlog is empty: on a fresh ring during setup, and in
the steady loop right after a successful submit_and_wait followed by the
no-op backlog drain - leaves exactly min d capacity entries in the queue.
The entries are copies of the template, pushed until the queue reports
full or d copies are pushed, with the queue view synchronized before and
after pushing (the sync calls inside fill_sq, identities on the model's
coherent view), and fill reports that count pushed. -/
theorem fill_sq_reaches_min_depth {α : Type} (sq : SQ α) (tmpl : α) (d : Nat)
    (hempty : sq.entries = []) (hd : d ≤ sq.cap) :
    (fill_sq sq tmpl d).1.entries = List.replicate (min d sq.cap) tmpl ∧
    (fill_sq sq tmpl d).1.entries.length = min d sq.cap ∧
    (fill_sq sq tmpl d).2 = min d sq.cap := by
  obtain ⟨cap, entries⟩ := sq
  simp at hempty
  subst hempty
  simp [fill_sq_spec]

theorem fill_sq_reaches_min_depth_witness :
    (fill_sq (SQ.mk 4096 ([] : List Unit)) () 3).1.entries
        = List.replicate (min 3 4096) () ∧
    (fill_sq (SQ.mk 4096 ([] : List Unit)) () 3).1.entries.length = min 3 4096 ∧
    (fill_sq (SQ.mk 4096 ([] : List Unit)) () 3).2 = min 3 4096 :=
  fill_sq_reaches_min_depth (SQ.mk 4096 []) () 3 rfl (by norm_num)

/-- C2 is refuted on the code: the setup loop of do_work (main.rs lines
89-99) restores the saved affinity mask only after the loop completes
normally; a failing fill_sq or submit returns early through `?` with the
thread still pinned.  Concrete run: pre-setup mask 3 (CPUs 0 and 1), one
ring assigned mask 8 (CPU 3) whose fill fails: setup exits with the error
while the thread affinity is 8, not the saved 3, so the affinity after
setup does not equal the pre-setup affinity on this failure exit path. -/
theorem affinity_restore_counterexample :
    (setupRings [((8 : Nat), some (0 : Nat))] 3).2 = Except.error 0 ∧
    (setupRings [((8 : Nat), some (0 : Nat))] 3).1 ≠ 3 :=
  ⟨rfl, by decide⟩

/-- C2 amended: the calling thread's affinity mask is saved before any
ring is pinned and is restored exactly on the normal completion path of
setup; if fill or submit fails for some ring (all earlier rings having
succeeded), setup returns that error early with the thread still pinned
to the failing ring's assigned CPU mask. -/
theorem affinity_restore_amended {ε : Type} (rings : List (Nat × Option ε))
    (saved : Nat) :
    ((∀ p ∈ rings, p.2 = none) → setupRings rings saved = (saved, .ok ())) ∧
    (∀ (l1 : List (Nat × Option ε)) (c : Nat) (e : ε)
        (l2 : List (Nat × Option ε)),
      rings = l1 ++ (c, some e) :: l2 → (∀ p ∈ l1, p.2 = none) →
      setupRings rings saved = (c, .error e)) := by
  refine ⟨fun h => setupRings_ok saved rings h, ?_⟩
  rintro l1 c e l2 rfl h
  exact setupRings_fail saved c e l2 l1 h

theorem affinity_restore_amended_witness :
    setupRings [((4 : Nat), (none : Option Nat))] 3 = (3, Except.ok ()) ∧
    setupRings [((4 : Nat), (none : Option Nat)), (8, some 0)] 3
      = (8, Except.error 0) :=
  ⟨(affinity_restore_amended [((4 : Nat), (none : Option Nat))] 3).1 (by simp),
   (affinity_restore_amended [((4 : Nat), (none : Option Nat)), (8, some 0)] 3).2
      [(4, none)] 8 0 [] rfl (by simp)⟩

/-- C3: at every observation point of the steady-state loop (every state
reachable by the queue operations of do_work from a fresh ring), no entry
is lost: the entries in the kernel-visible live queue (published in the
submission queue view or consumed by the kernel and still executing) plus
the entries in the backlog plus the completion records delivered but not
yet drained equal the total entries ever pushed minus the total ever fully
drained. -/
theorem no_entry_lost {α : Type} (tmpl : α) (st : RingState α)
    (h : Reachable tmpl st) :
    (liveQueueCount st : Int) + st.backlog.length + completedNotDrained st
      = (st.pushed : Int) - st.drained := by
  obtain ⟨hb, _, hsum⟩ := ringInv_reachable h
  simp [liveQueueCount, completedNotDrained, hb]
  omega

theorem no_entry_lost_witness :
    (liveQueueCount fillDemoState : Int) + fillDemoState.backlog.length
        + completedNotDrained fillDemoState
      = (fillDemoState.pushed : Int) - fillDemoState.drained :=
  no_entry_lost () fillDemoState
    (Relation.ReflTransGen.single (Step.fill initRing 2))

/-- C5: when submit_and_wait reports an Interrupted error, the pass over
this ring is a continue (main.rs line 105): the ring is skipped for this
pass and its submission queue, kernel-held entries, completion queue and
backlog are all left exactly unchanged - nothing is lost or duplicated -
so the ring is simply retried on the next pass. -/
theorem interrupted_wait_skips_ring {α : Type} (o : Nat → SubmitRes)
    (tmpl : α) (n : Nat) (buf : List Nat) (st : RingState α) :
    ringPass WaitRes.interrupted o tmpl n buf st = (st, PassResult.skipped) :=
  rfl

/-- C10: the backlog is created empty (main.rs line 62) and no operation
of the program ever pushes to it, so every reachable ring state has an
empty backlog, and the backlog drain loop's pop always yields None: the
loop exits on its first iteration, leaving the state unchanged apart from
the possible full-queue submit of that first iteration. -/
theorem backlog_always_empty {α : Type} (tmpl : α) (st : RingState α)
    (h : Reachable tmpl st) :
    st.backlog = [] ∧
    ∀ (o : Nat → SubmitRes) (k : Nat),
      (drainBacklog o st k).1 = st ∨ (drainBacklog o st k).1 = submitFlush st := by
  have hb := (ringInv_reachable h).1
  exact ⟨hb, fun o k => drainBacklog_empty o st k hb⟩

theorem backlog_always_empty_witness :
    (initRing : RingState Unit).backlog = [] ∧
    ((drainBacklog oracleOk (initRing : RingState Unit) 0).1 = initRing ∨
      (drainBacklog oracleOk (initRing : RingState Unit) 0).1
        = submitFlush initRing) :=
  ⟨(backlog_always_empty () initRing Relation.ReflTransGen.refl).1,
   (backlog_always_empty () initRing Relation.ReflTransGen.refl).2 oracleOk 0⟩

/-- C4: the backlog is drained strictly FIFO and strictly ahead of any
newly filled entries.  The drain loop re-enqueues exactly a front segment
of the backlog (take j) into the live flow - the kernel-consumed list
followed by the queue view - preserving the backlog order, and leaves the
rest (drop j) queued, so any entry A pushed before B re-enters the live
queue before B; when the drain exits via pop on None the backlog has been
emptied (otherwise it stopped because the queue was full again); and the
fresh fill that follows in the same pass appends its template copies
strictly after the queue's existing entries. -/
theorem backlog_fifo_drain_before_fill {α : Type} (o : Nat → SubmitRes)
    (tmpl : α) (n k : Nat) (st : RingState α) (hcap : 0 < st.sq.cap) :
    ∃ j, j ≤ st.backlog.length ∧
      ((drainBacklog o st k).1.submitted ++ (drainBacklog o st k).1.sq.entries
        = st.submitted ++ st.sq.entries ++ st.backlog.take j) ∧
      (drainBacklog o st k).1.backlog = st.backlog.drop j ∧
      ((drainBacklog o st k).2.1 = DrainExit.done →
        (drainBacklog o st k).1.backlog = []) ∧
      ∃ m, (fill_sq (drainBacklog o st k).1.sq tmpl n).1.entries
        = (drainBacklog o st k).1.sq.entries ++ List.replicate m tmpl := by
  obtain ⟨j, hj, heq, hbl, hdone⟩ :=
    drainLoop_take o st.backlog st.sq st.submitted k hcap
  refine ⟨j, hj, ?_, ?_, ?_, ?_⟩
  · simpa [drainBacklog] using heq
  · simpa [drainBacklog] using hbl
  · intro hex
    simp only [drainBacklog] at hex ⊢
    exact hdone hex
  · refine ⟨min n ((drainBacklog o st k).1.sq.cap
        - (drainBacklog o st k).1.sq.entries.length), ?_⟩
    simp [fill_sq_spec]

theorem backlog_fifo_drain_before_fill_witness :
    ∃ j, j ≤ stDemo.backlog.length ∧
      ((drainBacklog oracleOk stDemo 0).1.submitted
          ++ (drainBacklog oracleOk stDemo 0).1.sq.entries
        = stDemo.submitted ++ stDemo.sq.entries ++ stDemo.backlog.take j) ∧
      (drainBacklog oracleOk stDemo 0).1.backlog = stDemo.backlog.drop j ∧
      ((drainBacklog oracleOk stDemo 0).2.1 = DrainExit.done →
        (drainBacklog oracleOk stDemo 0).1.backlog = []) ∧
      ∃ m, (fill_sq (drainBacklog oracleOk stDemo 0).1.sq 7 5).1.entries
        = (drainBacklog oracleOk stDemo 0).1.sq.entries ++ List.replicate m 7 :=
  backlog_fifo_drain_before_fill oracleOk 7 5 0 stDemo (by decide)

/-- C6: steady-state submit error triage.  An Interrupted submit_and_wait
skips the ring (retried next pass, state unchanged); any other
submit_and_wait error is fatal, terminating the pass with that error; an
EBUSY submit inside the backlog drain stops the drain with the queue still
full, so the fill of this pass pushes nothing (filling resumes on the next
pass) without aborting; and any other submit error inside the drain is
fatal for the pass. -/
theorem steady_state_error_triage {α : Type} (o : Nat → SubmitRes) (tmpl : α)
    (n k : Nat) (buf : List Nat) (st : RingState α) :
    ringPass WaitRes.interrupted o tmpl n buf st = (st, PassResult.skipped) ∧
    ringPass WaitRes.err o tmpl n buf st = (st, PassResult.fatal) ∧
    ((drainBacklog o st k).2.1 = DrainExit.busy →
      (drainBacklog o st k).1.sq.is_full = true ∧
      fill_sq (drainBacklog o st k).1.sq tmpl n
        = ((drainBacklog o st k).1.sq, 0)) ∧
    ((drainBacklog o (submitFlush st) 0).2.1 = DrainExit.fatal →
      (ringPass WaitRes.ok o tmpl n buf st).2 = PassResult.fatal) := by
  refine ⟨rfl, rfl, ?_, ?_⟩
  · intro hbusy
    have hfull : (drainBacklog o st k).1.sq.is_full = true := by
      have hb := drainLoop_busy_full o st.backlog st.sq st.submitted k
        (by simpa [drainBacklog] using hbusy)
      simpa [drainBacklog] using hb
    exact ⟨hfull, fill_sq_of_full _ _ _ hfull⟩
  · intro hfatal
    rcases hd : drainBacklog o (submitFlush st) 0 with ⟨st2, ex, k2⟩
    rw [hd] at hfatal
    simp at hfatal
    subst hfatal
    simp [ringPass, hd]

theorem steady_state_error_triage_witness :
    ((drainBacklog obusy st6 0).1.sq.is_full = true ∧
      fill_sq (drainBacklog obusy st6 0).1.sq () 5
        = ((drainBacklog obusy st6 0).1.sq, 0)) ∧
    (ringPass WaitRes.ok ofatal () 5 [] st6).2 = PassResult.fatal :=
  ⟨(steady_state_error_triage obusy () 5 0 [] st6).2.2.1 (by decide),
   (steady_state_error_triage ofatal () 5 0 [] st6).2.2.2 (by decide)⟩

set_option maxRecDepth 8192 in
/-- C7 is refuted on the code: a decode error does terminate the drain
loop.  Concrete pass: one completion record reporting one byte read while
the shared buffer starts with the lone continuation byte 0x80, so
str::from_utf8 fails; the `?` on line 135 of main.rs propagates the error
out of do_work, ending the steady-state loop: the pass result is fatal,
contradicting that a DecodeError does not by itself terminate the loop. -/
theorem decode_error_counterexample :
    (ringPass WaitRes.ok oracleOk () 1 bufBad st7).2 = PassResult.fatal := by
  decide

/-- C7 amended: a DecodeError (a completion payload slice that is not
valid UTF-8) is propagated by the `?` inside the completion loop as the
error of do_work itself - the result handler is inlined there and always
chooses to abort - so whenever the completion loop of a pass stops with a
decode error, the pass (and with it the steady-state loop) terminates
fatally with that error. -/
theorem decode_error_terminates_loop {α : Type} (o : Nat → SubmitRes)
    (tmpl : α) (n : Nat) (buf : List Nat) (st : RingState α)
    (h : (reapCq buf st.cq).2.1 = some ReapStop.decodeErr) :
    (ringPass WaitRes.ok o tmpl n buf st).2 = PassResult.fatal := by
  rcases hd : drainBacklog o (submitFlush st) 0 with ⟨st2, ex, k2⟩
  have hcq : st2.cq = st.cq := by
    have h2 : st2 = (drainBacklog o (submitFlush st) 0).1 := by rw [hd]
    rw [h2]
    rfl
  cases ex with
  | fatal => simp [ringPass, hd]
  | done =>
    rcases hr : reapCq buf st.cq with ⟨nr, stop, rem⟩
    rw [hr] at h
    simp at h
    subst h
    simp [ringPass, hd, hcq, hr]
  | busy =>
    rcases hr : reapCq buf st.cq with ⟨nr, stop, rem⟩
    rw [hr] at h
    simp at h
    subst h
    simp [ringPass, hd, hcq, hr]

set_option maxRecDepth 8192 in
theorem decode_error_terminates_loop_witness :
    (ringPass WaitRes.ok oracleOk () 2 bufBad st7).2 = PassResult.fatal :=
  decode_error_terminates_loop oracleOk () 2 bufBad st7 (by decide)

/-- C8: with num_threads equal to 1 the engine runs inline on the calling
thread (the overall result is that single do_work result); with
num_threads greater than 1, exactly that many worker threads are spawned,
each running its own independent do_work (its result a function of its
index alone - no shared ring, backlog or completion state), the caller
joins them in spawn order, and the overall result is ok exactly when every
thread succeeded and otherwise the first error in join order. -/
theorem worker_replication_join {ε : Type} (n : Nat)
    (results : Nat → Except ε Unit) :
    (n ≤ 1 → mainRun n results = results 0) ∧
    (1 < n →
      ((List.range n).map results).length = n ∧
      (mainRun n results = .ok () ↔ ∀ i < n, results i = .ok ()) ∧
      (∀ e, mainRun n results = .error e ↔
        ∃ i, i < n ∧ results i = .error e ∧
          ∀ j, j < i → results j = .ok ())) := by
  constructor
  · intro h
    have hn : ¬ n > 1 := by omega
    simp [mainRun, hn]
  · intro hgt
    refine ⟨by simp, ?_, ?_⟩
    · unfold mainRun
      rw [if_pos hgt]
      exact joinRange_ok n results
    · intro e
      unfold mainRun
      rw [if_pos hgt]
      exact joinRange_err n results e

theorem worker_replication_join_witness :
    mainRun 3 fThreads = Except.error 1 :=
  (((worker_replication_join 3 fThreads).2 (by norm_num)).2.2 1).mpr
    ⟨1, by norm_num, rfl, by
      intro j hj
      interval_cases j
      rfl⟩

/-- C9: the completion handler slices the shared buffer as
rd_buf[..res as usize] with the i32 result cast to a 64-bit usize; for a
1024-byte buffer the slice is in bounds (the step is panic-free, handleCqe
returns some result) exactly when 0 le res le 1024.  Any negative result
(an error completion) wraps to a value near 2 to the power 64 and any
result above 1024 exceeds the buffer length: in both cases the slice is
out of bounds and the step panics.  The bounds on res are the i32 range of
cqe.result(). -/
theorem reap_slice_in_bounds_iff (res : Int) (buf : List Nat)
    (hlen : buf.length = 1024) (hlo : -2147483648 ≤ res)
    (hhi : res < 2147483648) :
    (handleCqe buf res).isSome = true ↔ (0 ≤ res ∧ res ≤ 1024) := by
  rw [handleCqe_isSome, hlen]
  unfold castToUsize USIZE_MOD
  omega

theorem reap_slice_in_bounds_iff_witness :
    (handleCqe (List.replicate 1024 0) 5).isSome = true :=
  (reap_slice_in_bounds_iff 5 (List.replicate 1024 0)
    (by rw [List.length_replicate]) (by norm_num)
    (by norm_num)).mpr (by norm_num)

end UringModel
